import Mathlib

/-!
Verification of the qman command-line client (src/qman.py).

The development shallowly embeds the account-operation dispatch and
batch-result aggregation logic of the script:

* user records and result mappings are association lists modelling
  Python dicts (insertion keeps the position of an existing key,
  otherwise appends at the end);
* the remote HTTP API is an oracle: a structure of functions from
  identifiers to either a success payload or an HTTP-error string
  (the text of str applied to the requests.HTTPError);
* each operation issues exactly one HTTP call per identifier; calls are
  recorded in a trace so that claims about which calls are made can be
  stated exactly;
* the batch loop mirrors the try/except block of the main program: an
  HTTP error is caught once around the whole loop and recorded under the
  identifier being processed, a KeyError is not caught and crashes the
  process before anything is rendered.
-/

namespace Qman

/-- A user record as returned by the remote API: an ordered mapping of
attribute names to (string-rendered) attribute values. -/
abbrev Rec := List (String × String)

/-- A value stored in the result mapping: either a record (info) or a
plain string (status payload, or the recorded HTTP-error text). -/
inductive RVal where
  | record (r : Rec)
  | text (s : String)
  deriving DecidableEq, Repr

/-- One HTTP call issued by the batch loop, as recorded in the trace. -/
inductive Call where
  | get (u : String)
  | put (u : String) (body : String)
  | del (u : String)
  deriving DecidableEq, Repr

/-- The five batch operations of the CLI. -/
inductive Op where
  | info
  | status
  | enable
  | disable
  | delete
  deriving DecidableEq, Repr

/-- The remote API oracle: for each identifier, either a success payload
or the text of the HTTP error raised by raise_for_status. -/
structure Remote where
  getUser : String → Except String Rec
  putUser : String → String → Except String Unit
  delUser : String → Except String Unit

/-- Lookup in a Python-dict model (association list). -/
def dictLookup {α : Type} : List (String × α) → String → Option α
  | [], _ => none
  | (k, v) :: rest, k2 => if k = k2 then some v else dictLookup rest k2

/-- Keys of a Python-dict model, in insertion order. -/
def dictKeys {α : Type} (d : List (String × α)) : List String :=
  d.map Prod.fst

/-- Assignment d[k] = v on a Python-dict model: an existing key keeps its
position and gets the new value, a new key is appended at the end. -/
def dictInsert {α : Type} : List (String × α) → String → α → List (String × α)
  | [], k, v => [(k, v)]
  | (k2, v2) :: rest, k, v =>
      if k2 = k then (k, v) :: rest else (k2, v2) :: dictInsert rest k v

/-- Accumulator form of the dict comprehension of the info branch,
line 195 of qman.py: iterate over the configured filter keys in order,
looking each one up in the returned record; a missing key is the
KeyError (the error carries the missing key). -/
def filterProjectAux (r : Rec) : List String → Rec → Except String Rec
  | [], acc => .ok acc
  | k :: rest, acc =>
      match dictLookup r k with
      | none => .error k
      | some v => filterProjectAux r rest (dictInsert acc k v)

/-- Projection of a record onto the configured attribute filter. -/
def filterProject (flt : List String) (r : Rec) : Except String Rec :=
  filterProjectAux r flt []

/-- The fixed JSON body sent by enable_user. -/
def activeBody : String := "\x7b\"status\": \"active\"\x7d"

/-- The fixed JSON body sent by disable_user. -/
def disabledBody : String := "\x7b\"status\": \"disabled\"\x7d"

/-- The single HTTP call an operation issues for one identifier. -/
def mkCall (op : Op) (u : String) : Call :=
  match op with
  | .info => .get u
  | .status => .get u
  | .enable => .put u activeBody
  | .disable => .put u disabledBody
  | .delete => .del u

/-- The two kinds of exception the batch loop can raise: an HTTP error
(caught by the except clause) or a KeyError (not caught). -/
inductive ErrKind where
  | http (e : String)
  | key (k : String)
  deriving DecidableEq, Repr

/-- Processing of a single identifier by the dispatch in lines 189-212 of
qman.py: the value stored in the result on success (none for the mutating
operations, which store nothing), or the exception raised. -/
def stepRes (op : Op) (rm : Remote) (flt : List String) (nf : Bool)
    (u : String) : Except ErrKind (Option RVal) :=
  match op with
  | .info =>
      match rm.getUser u with
      | .error e => .error (.http e)
      | .ok r =>
          if nf then .ok (some (.record r))
          else
            match filterProject flt r with
            | .error k => .error (.key k)
            | .ok pr => .ok (some (.record pr))
  | .status =>
      match rm.getUser u with
      | .error e => .error (.http e)
      | .ok r =>
          match dictLookup r "accountStatus" with
          | none => .error (.key "accountStatus")
          | some v => .ok (some (.text v))
  | .enable =>
      match rm.putUser u activeBody with
      | .error e => .error (.http e)
      | .ok _ => .ok none
  | .disable =>
      match rm.putUser u disabledBody with
      | .error e => .error (.http e)
      | .ok _ => .ok none
  | .delete =>
      match rm.delUser u with
      | .error e => .error (.http e)
      | .ok _ => .ok none

/-- Outcome of a batch run, as observed at the end of the main program:
normal reaches the final rendering line (the result mapping, the trace of
issued calls, and whether the declined-delete message was printed); crash
is an uncaught KeyError (identifier being processed, missing key, the
un-rendered internal result, calls issued so far); confirmEOF is an
exhausted input stream during the delete confirmation prompt. -/
inductive Outcome where
  | normal (result : List (String × RVal)) (calls : List Call)
      (printedNoActions : Bool)
  | crash (u : String) (key : String) (result : List (String × RVal))
      (calls : List Call)
  | confirmEOF
  deriving DecidableEq, Repr

/-- The batch loop of lines 188-217 of qman.py: one try block around the
whole loop; an HTTP error is recorded under the identifier currently
being iterated and ends the loop with the partial result; a KeyError
propagates (crash); identifiers after an error are never attempted. -/
def batchLoop (op : Op) (rm : Remote) (flt : List String) (nf : Bool) :
    List String → List (String × RVal) → List Call → Outcome
  | [], res, tr => .normal res tr false
  | u :: rest, res, tr =>
      match stepRes op rm flt nf u with
      | .error (.http e) =>
          .normal (dictInsert res u (.text e)) (tr ++ [mkCall op u]) false
      | .error (.key k) => .crash u k res (tr ++ [mkCall op u])
      | .ok none => batchLoop op rm flt nf rest res (tr ++ [mkCall op u])
      | .ok (some v) =>
          batchLoop op rm flt nf rest (dictInsert res u v) (tr ++ [mkCall op u])

/-- Model of the Python str.lower method on the ASCII range: lowercase
every character of the string. -/
def pyLower (s : String) : String :=
  String.mk (s.data.map Char.toLower)

/-- The delete confirmation loop of lines 207-209 of qman.py, after the
first answer has been read and lowercased: the current answer is tested
against the four accepted literals; any other answer consumes the next
line of input WITHOUT lowercasing it. Returns some true / some false for
an accepted confirmation / refusal, none when input runs out. -/
def confirmAux : String → List String → Option Bool
  | a, [] =>
      if a = "y" ∨ a = "yes" then some true
      else if a = "n" ∨ a = "no" then some false
      else none
  | a, b :: rest =>
      if a = "y" ∨ a = "yes" then some true
      else if a = "n" ∨ a = "no" then some false
      else confirmAux b rest

/-- The delete confirmation as implemented: the FIRST answer is
lowercased (line 207), the re-prompt answers are not (line 209). -/
def confirm : List String → Option Bool
  | [] => none
  | a :: rest => confirmAux (pyLower a) rest

/-- Modelled from the claim wording, for comparison with confirm: a
confirmation loop in which EVERY answer is lowercased before being
tested, i.e. a prompt that accepts case-insensitive y/yes/n/no and
re-prompts on any other answer. -/
def confirmCI : List String → Option Bool
  | [] => none
  | a :: rest =>
      if pyLower a = "y" ∨ pyLower a = "yes" then some true
      else if pyLower a = "n" ∨ pyLower a = "no" then some false
      else confirmCI rest

/-- One full batch run of the main program: the delete operation first
runs the confirmation prompt (declining prints the no-actions message and
issues no call, the empty result renders nothing); every other operation
runs the loop directly. -/
def runBatch (op : Op) (rm : Remote) (flt : List String) (nf : Bool)
    (answers : List String) (users : List String) : Outcome :=
  match op with
  | .delete =>
      match confirm answers with
      | none => .confirmEOF
      | some false => .normal [] [] true
      | some true => batchLoop .delete rm flt nf users [] []
  | _ => batchLoop op rm flt nf users [] []

/-- What the final pprint of line 219 renders: the result mapping when
the run ended normally with a non-empty result, nothing otherwise (an
empty result, a crash, or an exhausted confirmation prompt). -/
def rendered : Outcome → Option (List (String × RVal))
  | .normal res _ _ => if res.isEmpty then none else some res
  | _ => none

/-- The calls issued during a run. -/
def callsOf : Outcome → List Call
  | .normal _ calls _ => calls
  | .crash _ _ _ calls => calls
  | .confirmEOF => []

/-- Whether a call is a PUT addressed to the given identifier. -/
def isPutTo (u : String) : Call → Bool
  | .put u2 _ => u2 = u
  | _ => false

/-- Result entries contributed by a list of successfully processed
identifiers, folded into an existing result mapping: the helper mirrors
what the loop accumulates across a run of non-raising iterations. -/
def insEntries (op : Op) (rm : Remote) (flt : List String) (nf : Bool)
    (res : List (String × RVal)) (us : List String) : List (String × RVal) :=
  us.foldl
    (fun acc u =>
      match stepRes op rm flt nf u with
      | .ok (some v) => dictInsert acc u v
      | _ => acc)
    res

/-- One step of first-occurrence deduplication. -/
def dedupStep (acc : List String) (x : String) : List String :=
  if x ∈ acc then acc else acc ++ [x]

/-- First-occurrence deduplication: the key order a Python dict ends up
with after inserting the given keys in order. -/
def firstDedup (l : List String) : List String :=
  l.foldl dedupStep []

/-- An HTTP response at the transport level: status code and body text. -/
structure HttpResp where
  status : Nat
  text : String

/-- A decoded JSON value (only the shape matters for the claims). -/
inductive JVal where
  | null
  | bool (b : Bool)
  | str (s : String)
  | num (n : Int)
  deriving DecidableEq, Repr

/-- The whoami method, lines 69-77 of qman.py: one GET, then json.loads
of the response text. There is no raise_for_status call, so the HTTP
status of the response is never inspected; the only exception that can
propagate is a JSON decode failure. The transport and the JSON decoder
are parameters of the model. -/
def whoami (get : String → HttpResp) (decode : String → Except String JVal)
    (baseurl : String) : Except String JVal :=
  decode (get (baseurl ++ "/whoami")).text

/-- One page of the users listing, as the code accesses it: the two
fields read from the result object. An outer none models an absent key
(a KeyError on access); for nextPage, some none models a null cursor and
some (some s) a cursor string s. -/
structure PageResp where
  nextPage : Option (Option String)
  elements : Option (List Rec)

/-- Outcome of the listAllUsers pagination loop. -/
inductive PageExit where
  | ok (us : List Rec)
  | http (e : String)
  | keyErr
  | fuelOut
  deriving DecidableEq, Repr

/-- The pagination branch of QualtricsManager.users, lines 92-100 of
qman.py, with explicit fuel for the while loop: GET the current url,
raise_for_status (http exit on an error), read the nextPage field (a
KeyError if absent), read the elements field (a KeyError if absent),
append the elements, and continue while the cursor is a non-empty
string; a null or empty cursor ends the loop normally. -/
def listAllUsers (rm : String → Except String PageResp) :
    Nat → String → List Rec → PageExit
  | 0, _, _ => .fuelOut
  | fuel + 1, url, acc =>
      match rm url with
      | .error e => .http e
      | .ok p =>
          match p.nextPage with
          | none => .keyErr
          | some cur =>
              match p.elements with
              | none => .keyErr
              | some els =>
                  match cur with
                  | none => .ok (acc ++ els)
                  | some s =>
                      if s = "" then .ok (acc ++ els)
                      else listAllUsers rm fuel s (acc ++ els)

/-- A well-formed page chain starting at a url: the remote serves, at
each url of the chain, a page carrying the next element block; every
page but the last carries a non-empty cursor string pointing at the next
url, and the last page carries a null or empty cursor. -/
def goodChain (rm : String → Except String PageResp) :
    String → List (List Rec) → Prop
  | _, [] => False
  | url, els :: rest =>
      match rest with
      | [] =>
          ∃ cur, rm url = .ok ⟨some cur, some els⟩ ∧
            (cur = none ∨ cur = some "")
      | _ :: _ =>
          ∃ nxt, rm url = .ok ⟨some (some nxt), some els⟩ ∧ nxt ≠ "" ∧
            goodChain rm nxt rest

/-- Whitespace test used by the strip model. -/
def isWs (c : Char) : Bool := c.isWhitespace

/-- Model of Python str.strip on a list of characters: trailing
whitespace is removed (drop from the reversed list), then leading
whitespace. -/
def trimChars (l : List Char) : List Char :=
  ((l.reverse.dropWhile isWs).reverse).dropWhile isWs

/-- Model of Python readlines: split after every newline character,
keeping the newline attached to its line; a final fragment without a
trailing newline is kept; an empty tail contributes no line. The second
argument accumulates the current line in reverse. -/
def splitLinesAux : List Char → List Char → List (List Char)
  | [], acc => if acc.isEmpty then [] else [acc.reverse]
  | c :: rest, acc =>
      if c = '\n' then (acc.reverse ++ ['\n']) :: splitLinesAux rest []
      else splitLinesAux rest (c :: acc)

/-- readlines on a whole file content. -/
def pyReadlines (content : List Char) : List (List Char) :=
  splitLinesAux content []

/-- The file branch of line 182 of qman.py: strip every line of the
file. Empty lines are kept (they strip to the empty identifier). -/
def readIdentifiers (content : List Char) : List (List Char) :=
  (pyReadlines content).map trimChars

/-- Encoding of a list of newline-free lines as a file content in which
every line, also the last, ends with a newline. -/
def encodeLines (lines : List (List Char)) : List Char :=
  (lines.map (fun l => l ++ ['\n'])).flatten

/-- Outcome of the whole main program after argument parsing: the batch
ran, or the missing-identifier-source exception of line 184 was raised,
or the assert of line 181 failed because the input file is absent. -/
inductive MainOut where
  | ran (o : Outcome)
  | missingSource
  | fileMissing
  deriving DecidableEq, Repr

/-- Identifier-source resolution and batch dispatch, lines 177-217 of
qman.py: a non-empty user list wins (the file argument is never looked
at); otherwise a non-empty file path is read and split into identifiers
(docopt yields none or a string for the file option, and an empty path
string is falsy, hence treated as absent); otherwise the exception is
raised before any call is made. The filesystem is an oracle from paths
to contents. -/
def mainRun (argsUser : List String) (argsFile : Option String) (op : Op)
    (rm : Remote) (flt : List String) (nf : Bool) (answers : List String)
    (fs : String → Option (List Char)) : MainOut :=
  match argsUser with
  | _ :: _ => .ran (runBatch op rm flt nf answers argsUser)
  | [] =>
      match argsFile with
      | some p =>
          if p = "" then .missingSource
          else
            match fs p with
            | none => .fileMissing
            | some content =>
                .ran (runBatch op rm flt nf answers
                  ((readIdentifiers content).map (fun l => String.mk l)))
      | none => .missingSource

/-- Calls issued by a whole main run. -/
def mainCalls : MainOut → List Call
  | .ran o => callsOf o
  | .missingSource => []
  | .fileMissing => []

/-- The HTTP-error text requests produces for a 403 on the u2 endpoint. -/
def err403 : String :=
  "403 Client Error: Forbidden for url: https://dc1.qualtrics.com/API/v3/users/u2"

/-- A concrete remote that rejects the PUT for identifier u2 with a 403
error and accepts every other mutating call. -/
def rm403 : Remote where
  getUser := fun _ => .ok []
  putUser := fun u _ => if u = "u2" then .error err403 else .ok ()
  delUser := fun _ => .ok ()

/-- A concrete remote on which every lookup returns the same one-field
record and every mutating call succeeds. -/
def rmDup : Remote where
  getUser := fun _ => .ok [("a", "1")]
  putUser := fun _ _ => .ok ()
  delUser := fun _ => .ok ()

/-- A concrete page oracle whose every page has no nextPage key at all
(the field is absent from the response). -/
def rmAbsentCursor : String → Except String PageResp :=
  fun _ => .ok ⟨none, some []⟩

/-- A concrete transport whose every response carries HTTP status 500
with a fixed body. -/
def get500 : String → HttpResp :=
  fun _ => ⟨500, "plain error body"⟩

/-- A concrete JSON decoder for the counterexample: decodes every body
to a string value holding the body. -/
def decodeAny : String → Except String JVal :=
  fun s => .ok (.str s)

/-- A concrete transport whose every response carries HTTP status 200
with the same fixed body as get500. -/
def get200 : String → HttpResp :=
  fun _ => ⟨200, "plain error body"⟩

/-- A concrete remote returning a fixed three-attribute record for every
lookup. -/
def rmInfo : Remote where
  getUser := fun _ =>
    .ok [("username", "a"), ("accountStatus", "active"), ("email", "e")]
  putUser := fun _ _ => .ok ()
  delUser := fun _ => .ok ()

/-- A concrete remote whose record for identifier u2 lacks the username
attribute while every other record carries it. -/
def rmC10 : Remote where
  getUser := fun w =>
    if w = "u2" then .ok [("x", "1")] else .ok [("username", "a")]
  putUser := fun _ _ => .ok ()
  delUser := fun _ => .ok ()

/-- A concrete two-page oracle: page p1 points at page p2, page p2
carries a null cursor. -/
def rmTwoPages : String → Except String PageResp :=
  fun url =>
    if url = "p1" then .ok ⟨some (some "p2"), some [[("id", "1")]]⟩
    else if url = "p2" then .ok ⟨some none, some [[("id", "2")]]⟩
    else .error "404 Client Error"

/-! ### Lemmas about the Python-dict model -/

theorem dictKeys_nil {α : Type} : dictKeys ([] : List (String × α)) = [] := rfl

theorem dictKeys_cons {α : Type} (k : String) (v : α) (d : List (String × α)) :
    dictKeys ((k, v) :: d) = k :: dictKeys d := rfl

theorem dictLookup_dictInsert_self {α : Type} (d : List (String × α))
    (k : String) (v : α) : dictLookup (dictInsert d k v) k = some v := by
  induction d with
  | nil => simp [dictInsert, dictLookup]
  | cons p rest ih =>
    obtain ⟨k2, v2⟩ := p
    by_cases h : k2 = k
    · simp [dictInsert, h, dictLookup]
    · simp [dictInsert, h, dictLookup, ih]

theorem dictLookup_dictInsert_ne {α : Type} (d : List (String × α))
    (k k2 : String) (v : α) (h : k2 ≠ k) :
    dictLookup (dictInsert d k v) k2 = dictLookup d k2 := by
  have hne : ¬ k = k2 := fun hh => h hh.symm
  induction d with
  | nil =>
    simp [dictInsert, dictLookup, hne]
  | cons p rest ih =>
    obtain ⟨k3, v3⟩ := p
    by_cases h3 : k3 = k
    · subst h3
      simp [dictInsert, dictLookup, hne]
    · simp [dictInsert, h3, dictLookup, ih]

theorem dictKeys_dictInsert {α : Type} (d : List (String × α))
    (k : String) (v : α) :
    dictKeys (dictInsert d k v) =
      if k ∈ dictKeys d then dictKeys d else dictKeys d ++ [k] := by
  induction d with
  | nil => simp [dictInsert, dictKeys]
  | cons p rest ih =>
    obtain ⟨k2, v2⟩ := p
    by_cases h : k2 = k
    · subst h
      rw [dictInsert, if_pos rfl, dictKeys_cons, dictKeys_cons]
      simp
    · have hne : ¬ k = k2 := fun hh => h hh.symm
      rw [dictInsert, if_neg h, dictKeys_cons, dictKeys_cons, ih]
      by_cases hm : k ∈ dictKeys rest
      · rw [if_pos hm, if_pos (List.mem_cons.mpr (Or.inr hm))]
      · rw [if_neg hm, if_neg (by simp [List.mem_cons, hne, hm]),
          List.cons_append]

theorem mem_dictKeys_dictInsert {α : Type} (d : List (String × α))
    (k x : String) (v : α) (hx : x ∈ dictKeys (dictInsert d k v)) :
    x ∈ dictKeys d ∨ x = k := by
  rw [dictKeys_dictInsert] at hx
  by_cases hm : k ∈ dictKeys d
  · rw [if_pos hm] at hx
    exact .inl hx
  · rw [if_neg hm] at hx
    rcases List.mem_append.mp hx with h1 | h2
    · exact .inl h1
    · exact .inr (List.mem_singleton.mp h2)

/-! ### Lemmas about the filter projection -/

theorem filterProjectAux_lookup_not_mem (r : Rec) (flt : List String)
    (acc pr : Rec) (k : String) (hk : k ∉ flt)
    (h : filterProjectAux r flt acc = .ok pr) :
    dictLookup pr k = dictLookup acc k := by
  induction flt generalizing acc with
  | nil =>
    simp only [filterProjectAux, Except.ok.injEq] at h
    rw [h]
  | cons k0 rest ih =>
    have hk0 : k ≠ k0 := fun hh => hk (hh ▸ List.mem_cons_self k0 rest)
    have hkr : k ∉ rest := fun hh => hk (List.mem_cons_of_mem _ hh)
    cases hl : dictLookup r k0 with
    | none => simp only [filterProjectAux, hl] at h; exact Except.noConfusion h
    | some v =>
      simp only [filterProjectAux, hl] at h
      rw [ih _ hkr h, dictLookup_dictInsert_ne _ _ _ _ hk0]

theorem filterProjectAux_lookup_mem (r : Rec) (flt : List String)
    (acc pr : Rec) (k : String) (hk : k ∈ flt)
    (h : filterProjectAux r flt acc = .ok pr) :
    dictLookup pr k = dictLookup r k := by
  induction flt generalizing acc with
  | nil => cases hk
  | cons k0 rest ih =>
    cases hl : dictLookup r k0 with
    | none => simp only [filterProjectAux, hl] at h; exact Except.noConfusion h
    | some v =>
      simp only [filterProjectAux, hl] at h
      by_cases hm : k ∈ rest
      · exact ih _ hm h
      · have hkk : k = k0 := by
          rcases List.mem_cons.mp hk with h1 | h2
          · exact h1
          · exact absurd h2 hm
        subst hkk
        rw [filterProjectAux_lookup_not_mem r rest _ pr k hm h,
          dictLookup_dictInsert_self, hl]

theorem filterProjectAux_keys (r : Rec) (flt : List String) (acc pr : Rec)
    (h : filterProjectAux r flt acc = .ok pr) :
    dictKeys pr = flt.foldl dedupStep (dictKeys acc) := by
  induction flt generalizing acc with
  | nil =>
    simp only [filterProjectAux, Except.ok.injEq] at h
    rw [h, List.foldl_nil]
  | cons k0 rest ih =>
    cases hl : dictLookup r k0 with
    | none => simp only [filterProjectAux, hl] at h; exact Except.noConfusion h
    | some v =>
      simp only [filterProjectAux, hl] at h
      rw [ih _ h, List.foldl_cons]
      congr 1
      rw [dictKeys_dictInsert]
      rfl

theorem filterProjectAux_error_of_missing (r : Rec) (flt : List String)
    (acc : Rec) (k : String) (hk : k ∈ flt) (habs : dictLookup r k = none) :
    ∃ k2, filterProjectAux r flt acc = .error k2 := by
  induction flt generalizing acc with
  | nil => cases hk
  | cons k0 rest ih =>
    cases hl : dictLookup r k0 with
    | none => exact ⟨k0, by simp only [filterProjectAux, hl]⟩
    | some v =>
      have hm : k ∈ rest := by
        rcases List.mem_cons.mp hk with h1 | h2
        · subst h1
          rw [habs] at hl
          cases hl
        · exact h2
      simp only [filterProjectAux, hl]
      exact ih _ hm

theorem foldl_dedupStep_of_nodup (l acc : List String) (hd : l.Nodup)
    (hdisj : ∀ x ∈ l, x ∉ acc) : l.foldl dedupStep acc = acc ++ l := by
  induction l generalizing acc with
  | nil => simp
  | cons x rest ih =>
    have hx : x ∉ acc := hdisj x (List.mem_cons_self x rest)
    have hstep : dedupStep acc x = acc ++ [x] := by
      rw [dedupStep, if_neg hx]
    rw [List.foldl_cons, hstep,
      ih (acc ++ [x]) (List.Nodup.of_cons hd) ?_]
    · simp
    · intro y hy hmem
      rcases List.mem_append.mp hmem with h1 | h2
      · exact hdisj y (List.mem_cons_of_mem _ hy) h1
      · have : y = x := List.mem_singleton.mp h2
        subst this
        exact (List.nodup_cons.mp hd).1 hy

/-! ### Lemmas about the accumulated result entries -/

theorem insEntries_nil (op : Op) (rm : Remote) (flt : List String) (nf : Bool)
    (res : List (String × RVal)) : insEntries op rm flt nf res [] = res := rfl

theorem insEntries_cons_some (op : Op) (rm : Remote) (flt : List String)
    (nf : Bool) (res : List (String × RVal)) (u : String) (us : List String)
    (v : RVal) (h : stepRes op rm flt nf u = .ok (some v)) :
    insEntries op rm flt nf res (u :: us) =
      insEntries op rm flt nf (dictInsert res u v) us := by
  simp only [insEntries, List.foldl_cons, h]

theorem insEntries_cons_none (op : Op) (rm : Remote) (flt : List String)
    (nf : Bool) (res : List (String × RVal)) (u : String) (us : List String)
    (h : stepRes op rm flt nf u = .ok none) :
    insEntries op rm flt nf res (u :: us) = insEntries op rm flt nf res us := by
  simp only [insEntries, List.foldl_cons, h]

theorem insEntries_cons_error (op : Op) (rm : Remote) (flt : List String)
    (nf : Bool) (res : List (String × RVal)) (u : String) (us : List String)
    (e : ErrKind) (h : stepRes op rm flt nf u = .error e) :
    insEntries op rm flt nf res (u :: us) = insEntries op rm flt nf res us := by
  simp only [insEntries, List.foldl_cons, h]

theorem insEntries_lookup_not_mem (op : Op) (rm : Remote) (flt : List String)
    (nf : Bool) (res : List (String × RVal)) (us : List String) (u : String)
    (h : u ∉ us) :
    dictLookup (insEntries op rm flt nf res us) u = dictLookup res u := by
  induction us generalizing res with
  | nil => rfl
  | cons w ws ih =>
    have hw : u ≠ w := fun hh => h (hh ▸ List.mem_cons_self w ws)
    have hws : u ∉ ws := fun hh => h (List.mem_cons_of_mem _ hh)
    cases hsw : stepRes op rm flt nf w with
    | error e =>
      rw [insEntries_cons_error op rm flt nf res w ws e hsw]
      exact ih _ hws
    | ok o =>
      cases o with
      | none =>
        rw [insEntries_cons_none op rm flt nf res w ws hsw]
        exact ih _ hws
      | some v =>
        rw [insEntries_cons_some op rm flt nf res w ws v hsw,
          ih _ hws, dictLookup_dictInsert_ne _ _ _ _ hw]

theorem insEntries_lookup_mem (op : Op) (rm : Remote) (flt : List String)
    (nf : Bool) (res : List (String × RVal)) (us : List String) (u : String)
    (v : RVal) (hmem : u ∈ us) (hok : stepRes op rm flt nf u = .ok (some v)) :
    dictLookup (insEntries op rm flt nf res us) u = some v := by
  induction us generalizing res with
  | nil => cases hmem
  | cons w ws ih =>
    by_cases hw : u ∈ ws
    · cases hsw : stepRes op rm flt nf w with
      | error e =>
        rw [insEntries_cons_error op rm flt nf res w ws e hsw]
        exact ih _ hw
      | ok o =>
        cases o with
        | none =>
          rw [insEntries_cons_none op rm flt nf res w ws hsw]
          exact ih _ hw
        | some v2 =>
          rw [insEntries_cons_some op rm flt nf res w ws v2 hsw]
          exact ih _ hw
    · have huw : u = w := by
        rcases List.mem_cons.mp hmem with h1 | h2
        · exact h1
        · exact absurd h2 hw
      subst huw
      rw [insEntries_cons_some op rm flt nf res u ws v hok,
        insEntries_lookup_not_mem op rm flt nf _ ws u hw,
        dictLookup_dictInsert_self]

theorem insEntries_lookup_some (op : Op) (rm : Remote) (flt : List String)
    (nf : Bool) (res : List (String × RVal)) (us : List String) (u : String)
    (v : RVal) (h : dictLookup (insEntries op rm flt nf res us) u = some v) :
    (u ∈ us ∧ stepRes op rm flt nf u = .ok (some v)) ∨
      dictLookup res u = some v := by
  induction us generalizing res with
  | nil => exact .inr h
  | cons w ws ih =>
    cases hsw : stepRes op rm flt nf w with
    | error e =>
      rw [insEntries_cons_error op rm flt nf res w ws e hsw] at h
      rcases ih _ h with ⟨hm, hs⟩ | hr
      · exact .inl ⟨List.mem_cons_of_mem _ hm, hs⟩
      · exact .inr hr
    | ok o =>
      cases o with
      | none =>
        rw [insEntries_cons_none op rm flt nf res w ws hsw] at h
        rcases ih _ h with ⟨hm, hs⟩ | hr
        · exact .inl ⟨List.mem_cons_of_mem _ hm, hs⟩
        · exact .inr hr
      | some v2 =>
        rw [insEntries_cons_some op rm flt nf res w ws v2 hsw] at h
        rcases ih _ h with ⟨hm, hs⟩ | hr
        · exact .inl ⟨List.mem_cons_of_mem _ hm, hs⟩
        · by_cases huw : u = w
          · subst huw
            rw [dictLookup_dictInsert_self] at hr
            cases hr
            exact .inl ⟨List.mem_cons_self u ws, hsw⟩
          · rw [dictLookup_dictInsert_ne _ _ _ _ huw] at hr
            exact .inr hr

theorem mem_keys_insEntries (op : Op) (rm : Remote) (flt : List String)
    (nf : Bool) (res : List (String × RVal)) (us : List String) (x : String)
    (hx : x ∈ dictKeys (insEntries op rm flt nf res us)) :
    x ∈ dictKeys res ∨ x ∈ us := by
  induction us generalizing res with
  | nil => exact .inl hx
  | cons w ws ih =>
    cases hsw : stepRes op rm flt nf w with
    | error e =>
      rw [insEntries_cons_error op rm flt nf res w ws e hsw] at hx
      rcases ih _ hx with h1 | h2
      · exact .inl h1
      · exact .inr (List.mem_cons_of_mem _ h2)
    | ok o =>
      cases o with
      | none =>
        rw [insEntries_cons_none op rm flt nf res w ws hsw] at hx
        rcases ih _ hx with h1 | h2
        · exact .inl h1
        · exact .inr (List.mem_cons_of_mem _ h2)
      | some v =>
        rw [insEntries_cons_some op rm flt nf res w ws v hsw] at hx
        rcases ih _ hx with h1 | h2
        · rcases mem_dictKeys_dictInsert res w x v h1 with h3 | h4
          · exact .inl h3
          · exact .inr (h4 ▸ List.mem_cons_self w ws)
        · exact .inr (List.mem_cons_of_mem _ h2)

theorem insEntries_keys_all_some (op : Op) (rm : Remote) (flt : List String)
    (nf : Bool) (res : List (String × RVal)) (us : List String)
    (h : ∀ u ∈ us, ∃ v, stepRes op rm flt nf u = .ok (some v)) :
    dictKeys (insEntries op rm flt nf res us) =
      us.foldl dedupStep (dictKeys res) := by
  induction us generalizing res with
  | nil => rfl
  | cons w ws ih =>
    obtain ⟨v, hv⟩ := h w (List.mem_cons_self w ws)
    rw [insEntries_cons_some op rm flt nf res w ws v hv,
      ih _ (fun u hu => h u (List.mem_cons_of_mem _ hu)), List.foldl_cons]
    congr 1
    rw [dictKeys_dictInsert]
    rfl

theorem insEntries_eq_of_none (op : Op) (rm : Remote) (flt : List String)
    (nf : Bool) (res : List (String × RVal)) (us : List String)
    (h : ∀ u ∈ us, stepRes op rm flt nf u = .ok none) :
    insEntries op rm flt nf res us = res := by
  induction us with
  | nil => rfl
  | cons w ws ih =>
    rw [insEntries_cons_none op rm flt nf res w ws
      (h w (List.mem_cons_self w ws))]
    exact ih (fun u hu => h u (List.mem_cons_of_mem _ hu))

/-! ### The batch loop over a prefix of non-raising identifiers -/

theorem batchLoop_preRun (op : Op) (rm : Remote) (flt : List String)
    (nf : Bool) (pre : List String)
    (hpre : ∀ v ∈ pre, ∃ rv, stepRes op rm flt nf v = .ok rv)
    (rest : List String) (res : List (String × RVal)) (tr : List Call) :
    batchLoop op rm flt nf (pre ++ rest) res tr =
      batchLoop op rm flt nf rest (insEntries op rm flt nf res pre)
        (tr ++ pre.map (mkCall op)) := by
  induction pre generalizing res tr with
  | nil => simp [insEntries]
  | cons v pre2 ih =>
    obtain ⟨rv, hv⟩ := hpre v (List.mem_cons_self v pre2)
    have hpre2 : ∀ w ∈ pre2, ∃ rv, stepRes op rm flt nf w = .ok rv :=
      fun w hw => hpre w (List.mem_cons_of_mem _ hw)
    cases rv with
    | none =>
      rw [List.cons_append, batchLoop]
      simp only [hv]
      rw [ih hpre2 _ _, insEntries_cons_none op rm flt nf res v pre2 hv]
      simp [List.append_assoc]
    | some v2 =>
      rw [List.cons_append, batchLoop]
      simp only [hv]
      rw [ih hpre2 _ _, insEntries_cons_some op rm flt nf res v pre2 v2 hv]
      simp [List.append_assoc]

/-! ### Claim theorems -/

/-- C1: for every identifier list split as pre, u, post and every
operation, if processing u raises an HTTP-layer error e while every
identifier of pre was processed without an exception, the batch aborts:
the run ends normally having issued exactly one call per identifier of
pre plus the one call for u (nothing after u is ever attempted); the
error text is stored under the key u; every identifier of pre that
produced a success payload still maps to that payload, exactly as
computed; and every other key of the result is such an earlier success
(the error appears only under u). -/
theorem c1_http_error_aborts_batch (op : Op) (rm : Remote)
    (flt : List String) (nf : Bool) (pre post : List String) (u e : String)
    (hpre : ∀ v ∈ pre, ∃ rv, stepRes op rm flt nf v = .ok rv)
    (hu : stepRes op rm flt nf u = .error (.http e)) :
    ∃ res,
      batchLoop op rm flt nf (pre ++ u :: post) [] [] =
        .normal res ((pre ++ [u]).map (mkCall op)) false ∧
      dictLookup res u = some (.text e) ∧
      (∀ v ∈ pre, ∀ rv, stepRes op rm flt nf v = .ok (some rv) →
        dictLookup res v = some rv) ∧
      (∀ k w, k ≠ u → dictLookup res k = some w →
        k ∈ pre ∧ stepRes op rm flt nf k = .ok (some w)) := by
  rw [batchLoop_preRun op rm flt nf pre hpre (u :: post) [] []]
  rw [batchLoop]
  simp only [hu]
  refine ⟨dictInsert (insEntries op rm flt nf [] pre) u (.text e), ?_, ?_, ?_, ?_⟩
  · rw [List.map_append]
    rfl
  · exact dictLookup_dictInsert_self _ _ _
  · intro v hv rv hrv
    have hvu : v ≠ u := by
      intro hh
      subst hh
      rw [hu] at hrv
      exact Except.noConfusion hrv
    rw [dictLookup_dictInsert_ne _ _ _ _ hvu]
    exact insEntries_lookup_mem op rm flt nf [] pre v rv hv hrv
  · intro k w hk hlk
    rw [dictLookup_dictInsert_ne _ _ _ _ hk] at hlk
    rcases insEntries_lookup_some op rm flt nf [] pre k w hlk with h1 | h2
    · exact h1
    · exact Option.noConfusion h2

/-- Witness for C1 at a concrete input: operation enable, remote rm403,
identifiers u1, u2 (which fails with the 403 error) and u3. -/
theorem c1_witness :
    ∃ res,
      batchLoop .enable rm403 [] false (["u1"] ++ "u2" :: ["u3"]) [] [] =
        .normal res ((["u1"] ++ ["u2"]).map (mkCall .enable)) false ∧
      dictLookup res "u2" = some (.text err403) ∧
      (∀ v ∈ ["u1"], ∀ rv, stepRes .enable rm403 [] false v = .ok (some rv) →
        dictLookup res v = some rv) ∧
      (∀ k w, k ≠ "u2" → dictLookup res k = some w →
        k ∈ ["u1"] ∧ stepRes .enable rm403 [] false k = .ok (some w)) :=
  c1_http_error_aborts_batch .enable rm403 [] false ["u1"] ["u3"] "u2" err403
    (by
      intro v hv
      rcases List.mem_singleton.mp hv with rfl
      exact ⟨none, rfl⟩)
    rfl

/-- C2: a fully successful Enable (resp. Disable) batch issues exactly
one PUT per identifier, in input order, with the fixed active
(resp. disabled) JSON body, stores nothing in the result and renders
nothing; and in the concrete scenario with identifiers u1, u2, u3 where
the remote rejects the PUT for u2 with a 403, the final result maps
exactly u2 to the error text (which contains 403), u1 received exactly
one PUT and u3 received none. -/
theorem c2_enable_disable_puts (rm : Remote) (flt : List String) (nf : Bool)
    (users : List String)
    (hA : ∀ u ∈ users, rm.putUser u activeBody = .ok ())
    (hD : ∀ u ∈ users, rm.putUser u disabledBody = .ok ()) :
    batchLoop .enable rm flt nf users [] [] =
      .normal [] (users.map (fun u => Call.put u activeBody)) false ∧
    batchLoop .disable rm flt nf users [] [] =
      .normal [] (users.map (fun u => Call.put u disabledBody)) false ∧
    rendered (batchLoop .enable rm flt nf users [] []) = none ∧
    batchLoop .enable rm403 [] false ["u1", "u2", "u3"] [] [] =
      .normal [("u2", RVal.text err403)]
        [Call.put "u1" activeBody, Call.put "u2" activeBody] false ∧
    (∃ tail, err403 = "403" ++ tail) ∧
    (callsOf (batchLoop .enable rm403 [] false ["u1", "u2", "u3"] [] [])).countP
      (isPutTo "u1") = 1 ∧
    (callsOf (batchLoop .enable rm403 [] false ["u1", "u2", "u3"] [] [])).countP
      (isPutTo "u3") = 0 := by
  have hstepA : ∀ u ∈ users, stepRes .enable rm flt nf u = .ok none := by
    intro u hu
    rw [stepRes]
    rw [hA u hu]
  have hstepD : ∀ u ∈ users, stepRes .disable rm flt nf u = .ok none := by
    intro u hu
    rw [stepRes]
    rw [hD u hu]
  have hEn : batchLoop .enable rm flt nf users [] [] =
      .normal [] (users.map (mkCall .enable)) false := by
    have := batchLoop_preRun .enable rm flt nf users
      (fun v hv => ⟨none, hstepA v hv⟩) [] [] []
    rw [List.append_nil] at this
    rw [this, insEntries_eq_of_none .enable rm flt nf [] users hstepA]
    rfl
  have hDis : batchLoop .disable rm flt nf users [] [] =
      .normal [] (users.map (mkCall .disable)) false := by
    have := batchLoop_preRun .disable rm flt nf users
      (fun v hv => ⟨none, hstepD v hv⟩) [] [] []
    rw [List.append_nil] at this
    rw [this, insEntries_eq_of_none .disable rm flt nf [] users hstepD]
    rfl
  refine ⟨hEn, hDis, ?_, by rfl, ⟨" Client Error: Forbidden for url: https://dc1.qualtrics.com/API/v3/users/u2", by rfl⟩, by rfl, by rfl⟩
  rw [hEn]
  rfl

/-- Witness for C2 at a concrete input: the always-succeeding remote
rmDup and the one-identifier list. -/
theorem c2_witness :
    batchLoop .enable rmDup [] false ["a"] [] [] =
      .normal [] (["a"].map (fun u => Call.put u activeBody)) false ∧
    batchLoop .disable rmDup [] false ["a"] [] [] =
      .normal [] (["a"].map (fun u => Call.put u disabledBody)) false ∧
    rendered (batchLoop .enable rmDup [] false ["a"] [] []) = none ∧
    batchLoop .enable rm403 [] false ["u1", "u2", "u3"] [] [] =
      .normal [("u2", RVal.text err403)]
        [Call.put "u1" activeBody, Call.put "u2" activeBody] false ∧
    (∃ tail, err403 = "403" ++ tail) ∧
    (callsOf (batchLoop .enable rm403 [] false ["u1", "u2", "u3"] [] [])).countP
      (isPutTo "u1") = 1 ∧
    (callsOf (batchLoop .enable rm403 [] false ["u1", "u2", "u3"] [] [])).countP
      (isPutTo "u3") = 0 :=
  c2_enable_disable_puts rmDup [] false ["a"]
    (fun _ _ => rfl) (fun _ _ => rfl)

/-- C3: for a successful Info lookup returning record r, the per-identifier
processing stores, with filtering disabled, the full record r unmodified;
with filtering enabled (and the projection succeeding) it stores the
projected record pr, whose keys are exactly the configured filter keys in
configuration order (first-occurrence deduplicated; equal to the filter
itself whenever the filter has no duplicate key) and whose value at every
filter key is the value of the remote record at that key. -/
theorem c3_info_filtering (rm : Remote) (flt : List String) (u : String)
    (r pr : Rec) (hg : rm.getUser u = .ok r)
    (hp : filterProject flt r = .ok pr) :
    stepRes .info rm flt true u = .ok (some (.record r)) ∧
    stepRes .info rm flt false u = .ok (some (.record pr)) ∧
    dictKeys pr = firstDedup flt ∧
    (flt.Nodup → dictKeys pr = flt) ∧
    (∀ k ∈ flt, dictLookup pr k = dictLookup r k) := by
  have hkeys : dictKeys pr = firstDedup flt := by
    have := filterProjectAux_keys r flt [] pr hp
    rw [this]
    rfl
  refine ⟨?_, ?_, hkeys, ?_, ?_⟩
  · rw [stepRes, hg]
    rfl
  · rw [stepRes, hg]
    simp only [Bool.false_eq_true, if_false, hp]
  · intro hnd
    rw [hkeys, firstDedup,
      foldl_dedupStep_of_nodup flt [] hnd (fun x _ hx => (List.not_mem_nil x) hx)]
    rfl
  · intro k hk
    exact filterProjectAux_lookup_mem r flt [] pr k hk hp

/-- Witness for C3 at a concrete input: the rmInfo remote and the
two-attribute filter of the specification example. -/
theorem c3_witness :
    stepRes .info rmInfo ["username", "accountStatus"] true "u1" =
      .ok (some (.record
        [("username", "a"), ("accountStatus", "active"), ("email", "e")])) ∧
    stepRes .info rmInfo ["username", "accountStatus"] false "u1" =
      .ok (some (.record [("username", "a"), ("accountStatus", "active")])) ∧
    dictKeys [("username", "a"), ("accountStatus", "active")] =
      firstDedup ["username", "accountStatus"] ∧
    (["username", "accountStatus"].Nodup →
      dictKeys [("username", "a"), ("accountStatus", "active")] =
        ["username", "accountStatus"]) ∧
    (∀ k ∈ ["username", "accountStatus"],
      dictLookup [("username", "a"), ("accountStatus", "active")] k =
        dictLookup
          [("username", "a"), ("accountStatus", "active"), ("email", "e")] k) :=
  c3_info_filtering rmInfo ["username", "accountStatus"] "u1"
    [("username", "a"), ("accountStatus", "active"), ("email", "e")]
    [("username", "a"), ("accountStatus", "active")] rfl rfl

/-- C4 counterexample: the claim says the delete prompt accepts
case-insensitive y/yes/n/no, re-prompting on anything else. On the
concrete answer sequence x, Y the implemented prompt (which lowercases
only the FIRST answer, line 207, but not the re-prompt answers,
line 209) rejects the uppercase Y and runs out of input, performing no
deletion, while the case-insensitive prompt the claim describes accepts
Y as a confirmation; so the run ends with no decision and zero calls
where the claim demands a confirmed deletion. -/
theorem c4_counterexample :
    confirm ["x", "Y"] = none ∧
    confirmCI ["x", "Y"] = some true ∧
    runBatch .delete rmDup [] false ["x", "Y"] ["u1"] = .confirmEOF ∧
    callsOf (runBatch .delete rmDup [] false ["x", "Y"] ["u1"]) = [] := by
  refine ⟨by decide, by decide, by decide, by decide⟩

/-- C4 amended: the FIRST prompt answer is case-insensitive (the answer
is lowercased before the test, so two first answers with the same
lowercase form behave identically), but re-prompt answers are compared
case-sensitively (an uppercase Y at a re-prompt is rejected and consumes
the next answer, while a lowercase y at a re-prompt confirms); declining
performs zero API calls, prints the no-actions message and renders
nothing; confirming issues exactly one DELETE call per identifier in
input order when every call succeeds. -/
theorem c4_delete_confirmation (rm : Remote) (flt : List String) (nf : Bool)
    (users answers : List String) (a a2 : String) (rest : List String)
    (hok : ∀ u ∈ users, rm.delUser u = .ok ()) :
    (confirm answers = some false →
      runBatch .delete rm flt nf answers users = .normal [] [] true ∧
      rendered (runBatch .delete rm flt nf answers users) = none) ∧
    (confirm answers = some true →
      runBatch .delete rm flt nf answers users =
        .normal [] (users.map (fun u => Call.del u)) false) ∧
    (pyLower a = pyLower a2 →
      confirm (a :: rest) = confirm (a2 :: rest)) ∧
    (∀ b rest2, confirmAux "Y" (b :: rest2) = confirmAux b rest2) ∧
    confirmAux "Y" [] = none ∧
    (∀ rest2, confirmAux "y" rest2 = some true) := by
  have hstep : ∀ u ∈ users, stepRes .delete rm flt nf u = .ok none := by
    intro u hu
    rw [stepRes]
    rw [hok u hu]
  refine ⟨?_, ?_, ?_, ?_, rfl, ?_⟩
  · intro hno
    rw [runBatch, hno]
    exact ⟨rfl, rfl⟩
  · intro hyes
    rw [runBatch, hyes]
    have := batchLoop_preRun .delete rm flt nf users
      (fun v hv => ⟨none, hstep v hv⟩) [] [] []
    rw [List.append_nil] at this
    rw [this, insEntries_eq_of_none .delete rm flt nf [] users hstep]
    rfl
  · intro hl
    rw [confirm, confirm, hl]
  · intro b rest2
    rfl
  · intro rest2
    cases rest2 with
    | nil => rfl
    | cons b r => rfl

/-- Witness for C4 at a concrete input: the always-succeeding remote
rmDup, answer list containing the single refusal N, first-prompt answers
YES and yes. -/
theorem c4_witness :
    (confirm ["N"] = some false →
      runBatch .delete rmDup [] false ["N"] ["u1"] = .normal [] [] true ∧
      rendered (runBatch .delete rmDup [] false ["N"] ["u1"]) = none) ∧
    (confirm ["N"] = some true →
      runBatch .delete rmDup [] false ["N"] ["u1"] =
        .normal [] (["u1"].map (fun u => Call.del u)) false) ∧
    (pyLower "YES" = pyLower "yes" →
      confirm ("YES" :: ["zz"]) = confirm ("yes" :: ["zz"])) ∧
    (∀ b rest2, confirmAux "Y" (b :: rest2) = confirmAux b rest2) ∧
    confirmAux "Y" [] = none ∧
    (∀ rest2, confirmAux "y" rest2 = some true) :=
  c4_delete_confirmation rmDup [] false ["u1"] ["N"] "YES" "yes" ["zz"]
    (fun _ _ => rfl)

/-- C5 counterexample: the claim says pagination stops exactly when the
cursor field is empty or absent from a response. On a response from
which the nextPage field is absent the loop does not stop normally with
the accumulated elements: reading the field raises an uncaught KeyError
(the crash exit), which is not the normal ok exit the claim describes. -/
theorem c5_counterexample :
    listAllUsers rmAbsentCursor 5 "start" [] = .keyErr ∧
    PageExit.keyErr ≠ PageExit.ok [] :=
  ⟨rfl, by decide⟩

/-- C5 amended: over a well-formed page chain (every response carries the
nextPage field; every page but the last carries a non-empty cursor
string naming the next url; the last page carries a null or empty
cursor), the loop accumulates the element blocks of every page in the
order encountered and stops exactly at the null-or-empty cursor,
returning the accumulated sequence; a response missing the field instead
raises an uncaught KeyError. -/
theorem c5_pagination (rm : String → Except String PageResp) (url : String)
    (pages : List (List Rec)) (fuel : Nat) (acc : List Rec)
    (hchain : goodChain rm url pages) (hfuel : pages.length ≤ fuel) :
    listAllUsers rm fuel url acc = .ok (acc ++ pages.flatten) := by
  induction pages generalizing url fuel acc with
  | nil => exact absurd hchain (by rw [goodChain]; exact fun h => h)
  | cons els rest ih =>
    cases fuel with
    | zero => exact absurd hfuel (by simp)
    | succ f =>
      cases rest with
      | nil =>
        obtain ⟨cur, hrm, hcur⟩ := hchain
        rw [listAllUsers, hrm]
        rcases hcur with h1 | h2
        · subst h1
          simp
        · subst h2
          simp
      | cons els2 rest2 =>
        obtain ⟨nxt, hrm, hne, hch⟩ := hchain
        rw [listAllUsers, hrm]
        simp only [if_neg hne]
        rw [ih nxt f (acc ++ els) hch (Nat.le_of_succ_le_succ hfuel)]
        simp

/-- Witness for C5 at a concrete input: the two-page oracle rmTwoPages
starting at p1. -/
theorem c5_witness :
    listAllUsers rmTwoPages 2 "p1" [] =
      .ok (([] : List Rec) ++
        ([[[("id", "1")]], [[("id", "2")]]] : List (List Rec)).flatten) :=
  c5_pagination rmTwoPages "p1" [[[("id", "1")]], [[("id", "2")]]] 2 []
    ⟨"p2", rfl, by decide, ⟨none, rfl, Or.inl rfl⟩⟩ (by decide)

/-- C6 counterexample: the claim says any non-2xx response propagates
as an error from whoami. On a transport answering HTTP 500 with a
decodable body, whoami returns the decoded body as a NORMAL value: the
method never inspects the status (there is no raise_for_status call in
lines 69-77), so the HTTP error is converted into an ordinary return
value rather than propagated. -/
theorem c6_counterexample :
    whoami get500 decodeAny "b" = .ok (.str "plain error body") ∧
    (get500 ("b" ++ "/whoami")).status = 500 ∧
    (whoami get500 decodeAny "b").isOk = true :=
  ⟨rfl, rfl, rfl⟩

/-- C6 amended: whoami ignores the HTTP status entirely: two transports
serving the same bodies yield the same whoami result whatever their
statuses, and whenever the body of the response decodes, whoami returns
the decoded value normally, for any status; only a JSON decode failure
can propagate. -/
theorem c6_whoami_ignores_status (get get2 : String → HttpResp)
    (decode : String → Except String JVal) (b : String) (v : JVal)
    (htext : ∀ url, (get url).text = (get2 url).text)
    (hdec : decode ((get (b ++ "/whoami")).text) = .ok v) :
    whoami get decode b = whoami get2 decode b ∧
    whoami get decode b = .ok v := by
  constructor
  · rw [whoami, whoami, htext]
  · rw [whoami, hdec]

/-- Witness for C6 at a concrete input: the 500 and 200 transports with
identical bodies and the trivial decoder. -/
theorem c6_witness :
    whoami get500 decodeAny "b" = whoami get200 decodeAny "b" ∧
    whoami get500 decodeAny "b" = .ok (.str "plain error body") :=
  c6_whoami_ignores_status get500 get200 decodeAny "b"
    (.str "plain error body") (fun _ => rfl) rfl

/-- C7 counterexample: the claim says a list containing the same
identifier twice yields a result reflecting both occurrences without
collapsing them. On the concrete list u, u under Info, both occurrences
are attempted (two GET calls appear in the trace) but the result mapping
holds a single collapsed entry, not two. -/
theorem c7_counterexample :
    batchLoop .info rmDup [] true ["u", "u"] [] [] =
      .normal [("u", .record [("a", "1")])]
        [Call.get "u", Call.get "u"] false ∧
    List.length [("u", RVal.record [("a", "1")])] = 1 :=
  ⟨rfl, rfl⟩

/-- C7 amended: in a fully successful Info batch every occurrence of an
identifier is attempted (the trace holds exactly one call per occurrence,
in input order), but the result mapping collapses duplicates: its keys
are the distinct identifiers in order of first occurrence, each mapped
to the payload its processing computes. -/
theorem c7_order_and_collapse (rm : Remote) (flt : List String) (nf : Bool)
    (users : List String)
    (h : ∀ u ∈ users, ∃ v, stepRes .info rm flt nf u = .ok (some v)) :
    ∃ res,
      batchLoop .info rm flt nf users [] [] =
        .normal res (users.map (mkCall .info)) false ∧
      dictKeys res = firstDedup users ∧
      (∀ u ∈ users, ∀ v, stepRes .info rm flt nf u = .ok (some v) →
        dictLookup res u = some v) := by
  refine ⟨insEntries .info rm flt nf [] users, ?_, ?_, ?_⟩
  · have := batchLoop_preRun .info rm flt nf users
      (fun v hv => (h v hv).elim (fun w hw => ⟨some w, hw⟩)) [] [] []
    rw [List.append_nil] at this
    rw [this]
    rfl
  · rw [insEntries_keys_all_some .info rm flt nf [] users h]
    rfl
  · intro u hu v hv
    exact insEntries_lookup_mem .info rm flt nf [] users u v hu hv

/-- Witness for C7 at a concrete input: the duplicated list u, u on the
remote rmDup. -/
theorem c7_witness :
    ∃ res,
      batchLoop .info rmDup [] true ["u", "u"] [] [] =
        .normal res (["u", "u"].map (mkCall .info)) false ∧
      dictKeys res = firstDedup ["u", "u"] ∧
      (∀ u ∈ ["u", "u"], ∀ v,
        stepRes .info rmDup [] true u = .ok (some v) →
        dictLookup res u = some v) :=
  c7_order_and_collapse rmDup [] true ["u", "u"]
    (fun _ _ => ⟨.record [("a", "1")], rfl⟩)

/-- Auxiliary: splitting a content that starts with a newline-free line
followed by a newline peels off exactly that line. -/
theorem splitLinesAux_line (l : List Char) (suffix acc : List Char)
    (h : '\n' ∉ l) :
    splitLinesAux (l ++ '\n' :: suffix) acc =
      (acc.reverse ++ l ++ ['\n']) :: splitLinesAux suffix [] := by
  induction l generalizing acc with
  | nil => simp [splitLinesAux]
  | cons c l2 ih =>
    have hc : ¬ c = '\n' := fun hh => h (hh ▸ List.mem_cons_self c l2)
    have hl2 : '\n' ∉ l2 := fun hh => h (List.mem_cons_of_mem _ hh)
    rw [List.cons_append, splitLinesAux, if_neg hc, ih _ hl2]
    simp

/-- Auxiliary: readlines on an encoded list of newline-free lines
returns each line with its newline attached. -/
theorem pyReadlines_encode (lines : List (List Char))
    (h : ∀ l ∈ lines, '\n' ∉ l) :
    pyReadlines (encodeLines lines) =
      lines.map (fun l => l ++ ['\n']) := by
  induction lines with
  | nil => rfl
  | cons l rest ih =>
    have hl : '\n' ∉ l := h l (List.mem_cons_self l rest)
    have hrest : ∀ l2 ∈ rest, '\n' ∉ l2 :=
      fun l2 hl2 => h l2 (List.mem_cons_of_mem _ hl2)
    rw [encodeLines, List.map_cons, List.flatten_cons]
    rw [pyReadlines, List.append_assoc, List.singleton_append,
      splitLinesAux_line l _ [] hl]
    rw [show splitLinesAux ((rest.map (fun l => l ++ ['\n'])).flatten) [] =
      pyReadlines (encodeLines rest) from rfl, ih hrest]
    simp

/-- Auxiliary: stripping ignores the trailing newline of a line. -/
theorem trimChars_append_newline (l : List Char) :
    trimChars (l ++ ['\n']) = trimChars l := by
  rw [trimChars, trimChars, List.reverse_append]
  simp [List.dropWhile_cons, isWs]

/-- C8: reading identifiers from a file whose content is a list of
newline-terminated lines yields exactly one identifier per line, in
order, each being the line stripped of surrounding whitespace; in
particular no line is dropped (the identifier list has one element per
line) and a blank line contributes the empty identifier. -/
theorem c8_file_identifiers (lines : List (List Char))
    (h : ∀ l ∈ lines, '\n' ∉ l) :
    readIdentifiers (encodeLines lines) = lines.map trimChars ∧
    (readIdentifiers (encodeLines lines)).length = lines.length ∧
    ([] ∈ lines → [] ∈ readIdentifiers (encodeLines lines)) := by
  have h1 : readIdentifiers (encodeLines lines) = lines.map trimChars := by
    rw [readIdentifiers, pyReadlines_encode lines h, List.map_map]
    have h2 : (trimChars ∘ fun l => l ++ ['\n']) = trimChars :=
      funext fun l => trimChars_append_newline l
    rw [h2]
  refine ⟨h1, by rw [h1, List.length_map], ?_⟩
  intro hm
  rw [h1]
  exact List.mem_map.mpr ⟨[], hm, rfl⟩

/-- Witness for C8 at a concrete input: a file with line a, a blank
line, and line b. -/
theorem c8_witness :
    readIdentifiers (encodeLines [['a'], [], ['b']]) =
      [['a'], [], ['b']].map trimChars ∧
    (readIdentifiers (encodeLines [['a'], [], ['b']])).length =
      ([['a'], [], ['b']] : List (List Char)).length ∧
    ([] ∈ ([['a'], [], ['b']] : List (List Char)) →
      [] ∈ readIdentifiers (encodeLines [['a'], [], ['b']])) :=
  c8_file_identifiers [['a'], [], ['b']] (by decide)

/-- C9: a non-empty user argument list takes precedence: the file
argument and the filesystem content are never consulted and the batch
runs on exactly the user arguments; with no user argument and no file
argument the run stops with the missing-source error, issuing no call. -/
theorem c9_source_resolution (u0 : String) (us : List String)
    (argsFile argsFile2 : Option String) (op : Op) (rm : Remote)
    (flt : List String) (nf : Bool) (answers : List String)
    (fs fs2 : String → Option (List Char)) :
    mainRun (u0 :: us) argsFile op rm flt nf answers fs =
      mainRun (u0 :: us) argsFile2 op rm flt nf answers fs2 ∧
    mainRun (u0 :: us) argsFile op rm flt nf answers fs =
      .ran (runBatch op rm flt nf answers (u0 :: us)) ∧
    mainRun [] none op rm flt nf answers fs = .missingSource ∧
    mainCalls (mainRun [] none op rm flt nf answers fs) = [] :=
  ⟨rfl, rfl, rfl, rfl⟩

/-- C10: in an Info batch with filtering enabled, when the record
returned for identifier u lacks a configured filter key while every
identifier before u was processed without exception, the batch crashes
with the uncaught KeyError: the run ends in the crash outcome (not the
normal one), nothing is rendered, no error text is recorded under u, and
the earlier successes sit only in the internal, never-rendered mapping;
identifiers after u are never attempted. -/
theorem c10_missing_key_crash (rm : Remote) (flt : List String)
    (pre post : List String) (u k : String) (r : Rec)
    (hpre : ∀ v ∈ pre, ∃ rv, stepRes .info rm flt false v = .ok rv)
    (hg : rm.getUser u = .ok r) (hk : k ∈ flt)
    (habs : dictLookup r k = none) :
    ∃ k2 res,
      batchLoop .info rm flt false (pre ++ u :: post) [] [] =
        .crash u k2 res ((pre ++ [u]).map (mkCall .info)) ∧
      rendered (batchLoop .info rm flt false (pre ++ u :: post) [] []) =
        none ∧
      dictLookup res u = none ∧
      (∀ v ∈ pre, ∀ rv, stepRes .info rm flt false v = .ok (some rv) →
        dictLookup res v = some rv) := by
  obtain ⟨k2, hproj⟩ := filterProjectAux_error_of_missing r flt [] k hk habs
  have hstep : stepRes .info rm flt false u = .error (.key k2) := by
    rw [stepRes, hg]
    simp only [Bool.false_eq_true, if_false]
    rw [show filterProject flt r = .error k2 from hproj]
  have hrun : batchLoop .info rm flt false (pre ++ u :: post) [] [] =
      .crash u k2 (insEntries .info rm flt false [] pre)
        ((pre ++ [u]).map (mkCall .info)) := by
    rw [batchLoop_preRun .info rm flt false pre hpre (u :: post) [] [],
      batchLoop]
    simp only [hstep]
    rw [List.map_append]
    rfl
  refine ⟨k2, insEntries .info rm flt false [] pre, hrun, ?_, ?_, ?_⟩
  · rw [hrun]
    rfl
  · cases hcase : dictLookup (insEntries .info rm flt false [] pre) u with
    | none => rfl
    | some w =>
      exfalso
      rcases insEntries_lookup_some .info rm flt false [] pre u w hcase with
        ⟨hm, hs⟩ | h2
      · rw [hstep] at hs
        exact Except.noConfusion hs
      · exact Option.noConfusion h2
  · intro v hv rv hrv
    exact insEntries_lookup_mem .info rm flt false [] pre v rv hv hrv

/-- Witness for C10 at a concrete input: remote rmC10, filter username,
identifier u1 succeeding before u2 whose record lacks username. -/
theorem c10_witness :
    ∃ k2 res,
      batchLoop .info rmC10 ["username"] false (["u1"] ++ "u2" :: []) [] [] =
        .crash "u2" k2 res ((["u1"] ++ ["u2"]).map (mkCall .info)) ∧
      rendered
        (batchLoop .info rmC10 ["username"] false (["u1"] ++ "u2" :: []) [] []) =
        none ∧
      dictLookup res "u2" = none ∧
      (∀ v ∈ ["u1"], ∀ rv,
        stepRes .info rmC10 ["username"] false v = .ok (some rv) →
        dictLookup res v = some rv) :=
  c10_missing_key_crash rmC10 ["username"] ["u1"] [] "u2" "username"
    [("x", "1")]
    (by
      intro v hv
      rcases List.mem_singleton.mp hv with rfl
      exact ⟨some (.record [("username", "a")]), rfl⟩)
    rfl (by decide) rfl

end Qman
